import Mathlib

/-!
# Verification of the service-knowledge ingestion pipeline

This file gives a shallow embedding, in Lean 4, of the pure computational
core of the CodeClarityCE service-knowledge repository (Go), and settles a
list of claims about it.

Conventions of the embedding:

* Go strings are Lean `String`s; Go `strings.Contains` is modelled as list
  infix on the underlying character list, `strings.ToLower` as ASCII
  character lowering (all keyword constants in the program are ASCII),
  `strings.Split` / `strings.ReplaceAll` by fuel-based recursive functions
  on character lists (the programs only call them with non-empty
  separators, where the semantics below agrees with Go).
* Go maps used purely for membership / index lookup are modelled as
  functions (`String → Option _` or `String → Bool`).
* A SQL table with a unique natural key is modelled as a function from the
  key to an optional row; a multi-row `INSERT ... ON CONFLICT DO UPDATE`
  is modelled by `sqlBatchUpsert`, which fails (like PostgreSQL raising
  "ON CONFLICT DO UPDATE command cannot affect row a second time") exactly
  when two rows of the command share a natural key, and otherwise applies
  the rows left to right.
* Structures keep the fields of the corresponding Go structs that the
  functions under verification read; payload fields that none of the
  embedded code inspects are omitted.
-/

/-! ## Go string primitives -/

/-- Model of Go `strings.ToLower`, restricted to ASCII (every keyword the
program compares against is ASCII). -/
def goToLower (s : String) : String :=
  ⟨s.data.map Char.toLower⟩

/-- Model of Go `strings.Contains s sub`: `sub` occurs as a contiguous
substring of `s`. -/
def goContainsSub (s sub : String) : Bool :=
  decide (sub.data <:+: s.data)

/-- Cons a character onto the first segment of a split result (helper for
`splitFuel`). -/
def consHead (c : Char) : List (List Char) → List (List Char)
  | [] => [[c]]
  | seg :: rest => (c :: seg) :: rest

/-- Fuel-based worker for Go `strings.Split` on character lists.  Splits
around each non-overlapping occurrence of `pat`, scanning left to right. -/
def splitFuel : Nat → List Char → List Char → List (List Char)
  | 0, _, s => [s]
  | _ + 1, _, [] => [[]]
  | fuel + 1, pat, c :: cs =>
    if pat ≠ [] ∧ pat <+: (c :: cs) then
      [] :: splitFuel fuel pat ((c :: cs).drop pat.length)
    else
      consHead c (splitFuel fuel pat cs)

/-- Model of Go `strings.Split s sep` (for the non-empty separators the
program uses). -/
def goSplit (s sep : String) : List String :=
  (splitFuel (s.data.length + 1) sep.data s.data).map (fun l => ⟨l⟩)

/-- Fuel-based worker for Go `strings.ReplaceAll` on character lists. -/
def replaceFuel : Nat → List Char → List Char → List Char → List Char
  | 0, _, _, s => s
  | _ + 1, _, _, [] => []
  | fuel + 1, pat, rep, c :: cs =>
    if pat ≠ [] ∧ pat <+: (c :: cs) then
      rep ++ replaceFuel fuel pat rep ((c :: cs).drop pat.length)
    else
      c :: replaceFuel fuel pat rep cs

/-- Model of Go `strings.ReplaceAll s pat rep` (for the non-empty patterns
the program uses). -/
def goReplaceAll (s pat rep : String) : String :=
  ⟨replaceFuel (s.data.length + 1) pat.data rep.data s.data⟩

/-! ## Licence normalisation (`src/utilities/tools`, function `spdx`)

Embeds `spdx` from the tools package: it is documented to split an SPDX
expression on " OR " or on " AND " (parentheses stripped), but the " AND "
branch actually splits on " OR " again. -/

/-- Embedding of the Go function `spdx` (tools package).  Branch structure
and split separators are exactly those of the source, including the
" AND " branch splitting on " OR ". -/
def spdx (value : String) : List String :=
  if goContainsSub value (" OR ") then
    goSplit (goReplaceAll (goReplaceAll value ("(") ("")) (")") ("")) (" OR ")
  else if goContainsSub value (" AND ") then
    goSplit (goReplaceAll (goReplaceAll value ("(") ("")) (")") ("")) (" OR ")
  else
    [value]

/-! ## Version filtering (`src/utilities/pgsql/package.go`) -/

/-- The keyword list of `isPreviewVersion`, verbatim from the source. -/
def previewKeywords : List String :=
  ["alpha", "beta", "rc", "canary", "next", "dev", "experimental",
   "preview", "pre", "snapshot", "nightly", "unstable", "-alpha",
   "-beta", "-rc", "-canary", "-next", "-dev", "-experimental",
   "-preview", "-pre", "-snapshot", "-nightly", "-unstable",
   ".alpha", ".beta", ".rc", ".canary", ".next", ".dev",
   ".experimental", ".preview", ".pre", ".snapshot", ".nightly",
   ".unstable", "alpha.", "beta.", "rc.", "canary.", "next.", "dev.",
   "experimental.", "preview.", "pre.", "snapshot.", "nightly.", "unstable."]

/-- The twelve prerelease keywords named by the specification (§4.2). -/
def specPrereleaseKeywords : List String :=
  ["alpha", "beta", "rc", "canary", "next", "dev", "experimental",
   "preview", "pre", "snapshot", "nightly", "unstable"]

/-- Embedding of `isPreviewVersion` (package.go): lower-case the version
and test containment of every keyword. -/
def isPreviewVersion (version : String) : Bool :=
  let versionLower := goToLower version
  previewKeywords.any (fun keyword => goContainsSub versionLower keyword)

/-- A Version row as far as `UpdatePackage`'s version loop reads it. -/
structure VersionRow where
  version : String
  time : String
deriving DecidableEq

/-- A database write performed by `UpdatePackage`'s version loop. -/
inductive VersionWrite where
  | insert (v : VersionRow)
  | update (v : VersionRow)
deriving DecidableEq

/-- The row carried by a `VersionWrite`. -/
def VersionWrite.row : VersionWrite → VersionRow
  | .insert v => v
  | .update v => v

/-- Embedding of the version loop of `UpdatePackage` (package.go, lines
49–78): preview versions are skipped, every other version is inserted when
its version string is not among the existing versions and updated when it
is.  Returns the list of database writes issued, in order. -/
def updatePackageVersionWrites (existingVersions : List String) :
    List VersionRow → List VersionWrite
  | [] => []
  | v :: rest =>
    if isPreviewVersion v.version then
      updatePackageVersionWrites existingVersions rest
    else
      (if existingVersions.contains v.version then
        VersionWrite.update v
      else
        VersionWrite.insert v) :: updatePackageVersionWrites existingVersions rest

/-! ## Batch upsert persistence layer (`src/utilities/pgsql`) -/

/-- One OSV advisory row, as far as the batch upsert keys it
(`osv.go`; natural key `osv_id`). -/
structure OSVItem where
  osvId : String
  modified : String
deriving DecidableEq

/-- One GCVE record row, as far as the batch upsert keys it
(`cwe.go`; natural key `gcve_id`). -/
structure GCVEItem where
  gcveId : String
  dateUpdated : String
deriving DecidableEq

/-- One FriendsOfPHP advisory row, as far as the batch upsert keys it
(`friends_of_php.go`; natural key `advisory_id`). -/
structure FopAdvisory where
  advisoryId : String
  title : String
deriving DecidableEq

/-- Upsert of one row into a table keyed by `key`: the row replaces
whatever was stored under its natural key. -/
def rowUpsert {α : Type} (key : α → String) (db : String → Option α) (r : α) :
    String → Option α :=
  fun k => if k = key r then some r else db k

/-- Multi-row `INSERT ... ON CONFLICT DO UPDATE`.  PostgreSQL rejects the
command when two of its rows share the conflict key ("cannot affect row a
second time"); otherwise every row is upserted. -/
def sqlBatchUpsert {α : Type} (key : α → String) (db : String → Option α)
    (rows : List α) : Option (String → Option α) :=
  if (rows.map key).Nodup then some (rows.foldl (rowUpsert key) db) else none

/-- Embedding of `BatchUpdateOsv` (osv.go): empty batches are a no-op; the
slice is handed to the SQL unchanged; on SQL failure the transaction rolls
back, leaving the stored state unchanged.  The boolean reports success. -/
def batchUpdateOsv (db : String → Option OSVItem) (items : List OSVItem) :
    (String → Option OSVItem) × Bool :=
  if items.isEmpty then (db, true)
  else
    match sqlBatchUpsert OSVItem.osvId db items with
    | some db' => (db', true)
    | none => (db, false)

/-- Embedding of `BatchUpdateFriendsOfPHP` (friends_of_php.go): identical
shape to `batchUpdateOsv`, keyed by `advisory_id`, no deduplication. -/
def batchUpdateFop (db : String → Option FopAdvisory)
    (advisories : List FopAdvisory) : (String → Option FopAdvisory) × Bool :=
  if advisories.isEmpty then (db, true)
  else
    match sqlBatchUpsert FopAdvisory.advisoryId db advisories with
    | some db' => (db', true)
    | none => (db, false)

/-- Worker of `deduplicateGcveItems` (cwe.go, lines 144–158): iterate the
items keeping a `seen` map from natural key to the index of its slot in
`result`; a repeated key overwrites its slot, a new key appends.  The Go
`map[string]int` is modelled as a function. -/
def dedupGo {α : Type} (key : α → String) :
    List α → List α → (String → Option Nat) → List α
  | [], result, _ => result
  | item :: rest, result, seen =>
    match seen (key item) with
    | some idx => dedupGo key rest (result.set idx item) seen
    | none =>
      dedupGo key rest (result ++ [item])
        (fun k => if k = key item then some result.length else seen k)

/-- Embedding of `deduplicateGcveItems` (cwe.go): removes duplicate GCVE
ids within a batch, keeping the last occurrence. -/
def deduplicateGcveItems (items : List GCVEItem) : List GCVEItem :=
  dedupGo GCVEItem.gcveId items [] (fun _ => none)

/-- Embedding of `BatchUpdateGcve` (cwe.go): empty batches are a no-op;
the slice is deduplicated by `deduplicateGcveItems` before the SQL is
issued. -/
def batchUpdateGcve (db : String → Option GCVEItem) (items : List GCVEItem) :
    (String → Option GCVEItem) × Bool :=
  if items.isEmpty then (db, true)
  else
    match sqlBatchUpsert GCVEItem.gcveId db (deduplicateGcveItems items) with
    | some db' => (db', true)
    | none => (db, false)

/-- Replace-or-append on a list viewed as an association list keyed by
`key`: the specification-level counterpart of one `dedupGo` step. -/
def upsertKeep {α : Type} (key : α → String) : List α → α → List α
  | [], x => [x]
  | y :: ys, x => if key y = key x then x :: ys else y :: upsertKeep key ys x

/-- Index of the first element of `l` whose key is `k`. -/
def firstIdx {α : Type} (key : α → String) : List α → String → Option Nat
  | [], _ => none
  | y :: ys, k => if key y = k then some 0 else (firstIdx key ys k).map (· + 1)

/-- The empty OSV table. -/
def osvEmptyDb : String → Option OSVItem := fun _ => none

/-- First half of a duplicated-key OSV batch (counterexample input). -/
def osvDupA : OSVItem := ⟨"OSV-2024-1", "2024-01-01"⟩

/-- Second half of a duplicated-key OSV batch (counterexample input). -/
def osvDupB : OSVItem := ⟨"OSV-2024-1", "2024-02-02"⟩

/-! ## GCVE flattening (`src/mirrors/gcve/main.go`) -/

/-- One `affected` entry of a CVE Record v5 container, as far as the
flattening reads it. -/
structure GCVEAffected where
  vendor : String
  product : String
deriving DecidableEq

/-- One entry of `affected_flattened`. -/
structure GCVEProduct where
  vendor : String
  product : String
deriving DecidableEq

/-- The `seen` key used by `buildAffectedFlattened`. -/
def gcveProductKey (vendor product : String) : String :=
  goToLower vendor ++ "|" ++ goToLower product

/-- Worker of `buildAffectedFlattened` (gcve/main.go, lines 384–403); the
Go `map[string]bool` is modelled as a function. -/
def buildAffectedFlattenedGo :
    List GCVEAffected → (String → Bool) → List GCVEProduct
  | [], _ => []
  | aff :: rest, seen =>
    if aff.product = "" then buildAffectedFlattenedGo rest seen
    else
      if seen (gcveProductKey aff.vendor aff.product) then
        buildAffectedFlattenedGo rest seen
      else
        ⟨goToLower aff.vendor, goToLower aff.product⟩ ::
          buildAffectedFlattenedGo rest
            (fun k =>
              if k = gcveProductKey aff.vendor aff.product then true else seen k)

/-- Embedding of `buildAffectedFlattened` (gcve/main.go): denormalised
vendor+product list of the CNA affected entries. -/
def buildAffectedFlattened (affected : List GCVEAffected) : List GCVEProduct :=
  buildAffectedFlattenedGo affected (fun _ => false)

/-- Embedding of the `affected_flattened` computation of `parseCVERecord`
(gcve/main.go, lines 284–321): `buildAffectedFlattened` over the CNA
affected list, then, inside the ADP loop, every ADP affected entry with a
non-empty product is appended verbatim. -/
def parseAffectedFlattened (cnaAffected : List GCVEAffected)
    (adpAffecteds : List (List GCVEAffected)) : List GCVEProduct :=
  adpAffecteds.foldl
    (fun flat adpAff =>
      flat ++ (adpAff.filter (fun a => a.product ≠ "")).map
        (fun a => ⟨a.vendor, a.product⟩))
    (buildAffectedFlattened cnaAffected)

/-- Lower-cased (vendor, product) pair of an affected entry. -/
def lowerPair (a : GCVEAffected) : GCVEProduct :=
  ⟨goToLower a.vendor, goToLower a.product⟩

/-- Verbatim (vendor, product) pair of an affected entry. -/
def rawPair (a : GCVEAffected) : GCVEProduct :=
  ⟨a.vendor, a.product⟩

/-- The `seen` key of a flattened product pair. -/
def prodKey (p : GCVEProduct) : String :=
  p.vendor ++ "|" ++ p.product

/-- Keep the first occurrence of every key (specification-level
deduplication, with an explicit seen-key accumulator). -/
def dedupFirstAux : List GCVEProduct → List String → List GCVEProduct
  | [], _ => []
  | p :: ps, seenKeys =>
    if prodKey p ∈ seenKeys then dedupFirstAux ps seenKeys
    else p :: dedupFirstAux ps (prodKey p :: seenKeys)

/-- The `affected_flattened` value the specification describes: the
lowercased, deduplicated (vendor, product) pairs across the CNA affected
list and all ADP affected lists, excluding pairs whose product is empty
or "*". -/
def specAffectedFlattened (cnaAffected : List GCVEAffected)
    (adpAffecteds : List (List GCVEAffected)) : List GCVEProduct :=
  dedupFirstAux
    (((cnaAffected ++ adpAffecteds.flatten).filter
        (fun a => a.product ≠ "" ∧ a.product ≠ "*")).map lowerPair)
    []

/-- CNA affected list of the C2 counterexample: one pair whose product is
the wildcard "*". -/
def cnaAffectedEx : List GCVEAffected := [⟨"V", "*"⟩]

/-- ADP affected lists of the C2 counterexample: one container repeating
an upper-case pair twice. -/
def adpAffectedsEx : List (List GCVEAffected) :=
  [[⟨"Ven", "Prod"⟩, ⟨"Ven", "Prod"⟩]]

/-! ## NVD normalisation (`src/utilities/types`, NVD file) -/

/-- Embedding of `CriteriaDict` (parsed CPE 2.3 criteria fields). -/
structure CriteriaDict where
  part : String
  vendor : String
  product : String
  version : String
  updateField : String
  edition : String
  language : String
  swEdition : String
  targetSw : String
  targetHw : String
  other : String
deriving DecidableEq

/-- Embedding of `CpeMatch`; only the fields the normalisation reads. -/
structure CpeMatch where
  vulnerable : Bool
  criteria : String
  criteriaDict : CriteriaDict
deriving DecidableEq

/-- Embedding of a configuration `Node` (recursive through `children`). -/
inductive Node where
  | mk (operator : String) (negate : Bool) (cpeMatch : List CpeMatch)
      (children : List Node)

/-- The `Operator` field of a node. -/
def Node.operator : Node → String
  | .mk o _ _ _ => o

/-- The `CpeMatch` field of a node. -/
def Node.cpeMatch : Node → List CpeMatch
  | .mk _ _ c _ => c

/-- The `Children` field of a node. -/
def Node.children : Node → List Node
  | .mk _ _ _ ch => ch

/-- Embedding of `Configuration`. -/
structure Configuration where
  nodes : List Node

/-- Embedding of `NVDAffected`. -/
structure NVDAffected where
  sources : List CpeMatch
  runningOn : List CpeMatch
  runningOnApplicationsOnly : List CpeMatch
deriving DecidableEq

/-- The fields of an NVD `CVE` that the flattening reads. -/
structure NvdCve where
  id : String
  configurations : List Configuration

/-- Embedding of `parseConfig`: split the CPE 2.3 criteria string on ":"
and read fields 2–12.  (Go indexes the split unconditionally and would
panic on a malformed criteria; the embedding totalises with "".) -/
def parseConfig (config : CpeMatch) : CriteriaDict :=
  let cs := goSplit config.criteria (":")
  { part := cs.getD 2 ("")
    vendor := cs.getD 3 ("")
    product := cs.getD 4 ("")
    version := cs.getD 5 ("")
    updateField := cs.getD 6 ("")
    edition := cs.getD 7 ("")
    language := cs.getD 8 ("")
    swEdition := cs.getD 9 ("")
    targetSw := cs.getD 10 ("")
    targetHw := cs.getD 11 ("")
    other := cs.getD 12 ("") }

/-- The in-place `sources[i].CriteriaDict = parseConfig(sources[i])`
mutation, as a per-element function. -/
def withParsed (m : CpeMatch) : CpeMatch :=
  { m with criteriaDict := parseConfig m }

/-- Embedding of `validateLibrary`: the entry list mentions at least one
application ("a") CPE. -/
def validateLibrary (sources : List CpeMatch) : Bool :=
  sources.any (fun s => s.criteriaDict.part = "a")

/-- Embedding of `filterCpe`: keep only application ("a") CPEs. -/
def filterCpe (sources : List CpeMatch) : List CpeMatch :=
  sources.filter (fun s => s.criteriaDict.part = "a")

/-- A default node (used to read `children[0]`/`children[1]`, which the
source only does under a length guard). -/
def defaultNode : Node := ⟨"", false, [], []⟩

/-- Processing of one configuration node, from the body of
`createAffected`'s loop. -/
def processNode (acc : List NVDAffected) (node : Node) : List NVDAffected :=
  if node.operator = "AND" then
    if node.children.length < 2 then
      if node.cpeMatch.length > 0 then
        if validateLibrary (node.cpeMatch.map withParsed) then
          acc ++ [⟨filterCpe (node.cpeMatch.map withParsed), [], []⟩]
        else acc
      else acc
    else
      if validateLibrary (((node.children.getD 0 defaultNode).cpeMatch).map withParsed) then
        acc ++ [⟨filterCpe (((node.children.getD 0 defaultNode).cpeMatch).map withParsed),
          ((node.children.getD 1 defaultNode).cpeMatch).map withParsed,
          filterCpe (((node.children.getD 1 defaultNode).cpeMatch).map withParsed)⟩]
      else acc
  else if node.operator = "OR" then
    if validateLibrary (node.cpeMatch.map withParsed) then
      acc ++ [⟨filterCpe (node.cpeMatch.map withParsed), [], []⟩]
    else acc
  else acc

/-- Embedding of `createAffected`: iterate the nodes of the first
configuration only. -/
def createAffected (cve : NvdCve) : List NVDAffected :=
  match cve.configurations with
  | [] => []
  | cfg0 :: _ => cfg0.nodes.foldl processNode []

/-- Embedding of the flattening step of `GetVulns` (lines 102–109): the
concatenation of `sources`, `running-on` and
`running-on-applications-only` of the first affected entry. -/
def nvdAffectedFlattened (affected : List NVDAffected) : List CpeMatch :=
  match affected with
  | [] => []
  | a0 :: _ => a0.sources ++ a0.runningOn ++ a0.runningOnApplicationsOnly

/-- The `affectedFlattened` field `GetVulns` stores for one CVE. -/
def affectedFlattenedOf (cve : NvdCve) : List CpeMatch :=
  nvdAffectedFlattened (createAffected cve)

/-- An unparsed criteria dictionary (the JSON zero value; `parseConfig`
overwrites it). -/
def emptyDict : CriteriaDict :=
  ⟨"", "", "", "", "", "", "", "", "", "", ""⟩

/-- An application CPE match (part "a") for the C3 counterexample. -/
def appCpeEx : CpeMatch :=
  ⟨true, "cpe:2.3:a:django:django:1.0:*:*:*:*:*:*:*", emptyDict⟩

/-- An operating-system CPE match (part "o") for the C3 counterexample. -/
def osCpeEx : CpeMatch :=
  ⟨false, "cpe:2.3:o:microsoft:windows:10:*:*:*:*:*:*:*", emptyDict⟩

/-- The C3 counterexample record: one AND node whose first child holds an
application CPE and whose second child holds an OS CPE. -/
def nvdCveEx : NvdCve :=
  ⟨"CVE-2024-0001",
   [⟨[⟨"AND", false, [], [⟨"OR", false, [appCpeEx], []⟩,
       ⟨"OR", false, [osCpeEx], []⟩]⟩]⟩]⟩

/-! ## Update coordinator (`src/knowledge.go`, function `Update`) -/

/-- The mirrors the coordinator drives. -/
inductive Mirror where
  | licenses | epss | osv | cwe | nvd | friendsOfPhp | follow
deriving DecidableEq

/-- The call order of `Update` (knowledge.go, lines 131–187). -/
def updateOrder : List Mirror :=
  [.licenses, .epss, .osv, .cwe, .nvd, .friendsOfPhp, .follow]

/-- One `err := mirror.Update(...); if err != nil { log } ` block of the
coordinator: the mirror always runs, a failure is only logged. -/
def updateStep (fails : Mirror → Bool) (st : List Mirror × List Mirror)
    (m : Mirror) : List Mirror × List Mirror :=
  (st.1 ++ [m], if fails m then st.2 ++ [m] else st.2)

/-- Embedding of `Update`: run every mirror in `updateOrder`, recording
which mirrors ran and which failures were logged. -/
def updateRun (fails : Mirror → Bool) : List Mirror × List Mirror :=
  updateOrder.foldl (updateStep fails) ([], [])

/-- The value `Update` returns: always `nil` (every error path is
commented out in the source). -/
def updateResult (_ : Mirror → Bool) : Option String := none

/-! ## npm download retry (`src/mirrors/js`, `downloadWithRetry`) -/

/-- Outcome of an npm package fetch. -/
inductive NpmFetchResult where
  | success
  | notFound
  | rateLimited
  | fetchError (status : Nat)
deriving DecidableEq

/-- Embedding of `downloadWithRetry`.  `resp n` is the HTTP status of the
attempt with `retryCount = n`.  Returns the outcome and the list of sleeps
(in seconds) performed, in order.  Parsing of a 200 body is abstracted as
`success`. -/
def downloadWithRetry (resp : Nat → Nat) (retryCount : Nat) :
    NpmFetchResult × List Nat :=
  let status := resp retryCount
  if status ≠ 200 then
    if status = 404 then (.notFound, [])
    else if status = 429 then
      if h : retryCount ≥ 3 then (.rateLimited, [])
      else
        let rest := downloadWithRetry resp (retryCount + 1)
        (rest.1, 30 * (retryCount + 1) :: rest.2)
    else (.fetchError status, [])
  else (.success, [])
termination_by 4 - retryCount
decreasing_by omega

/-- A response schedule that is rate-limited on every attempt. -/
def respAll429 : Nat → Nat := fun _ => 429

/-- A response schedule: 429 on the first two attempts, then 200. -/
def resp429Then200 : Nat → Nat := fun n => if n < 2 then 429 else 200

/-- A response schedule that answers 404 immediately. -/
def resp404 : Nat → Nat := fun _ => 404

/-- A response schedule that answers 500 immediately. -/
def resp500 : Nat → Nat := fun _ => 500

/-! ## npm latest version (`src/utilities/types/npm.go`)

`GetLatestVersion` sorts the version strings descending through the
external `utility-node-semver` library and returns the first element.
The library is not part of this repository; its ordering is modelled from
the specification ("the greatest version by semver ordering"). -/

/-- Parse a non-empty all-digit character list as a natural number. -/
def parseDigits (l : List Char) : Option Nat :=
  if l ≠ [] ∧ l.all Char.isDigit then
    some (l.foldl (fun n c => n * 10 + (c.toNat - 48)) 0)
  else none

/-- A pre-release identifier, following semver §9/§11 as the spec (§9,
"implement full semver including pre-release handling") mandates: numeric
identifiers (ordered numerically) always sort below alphanumeric
identifiers (ordered lexically in ASCII order, as character lists). -/
abbrev PreReleaseId : Type := Nat ⊕ₗ (List Char)

/-- The precedence key of a parsed semver version: major, minor and patch
lexicographically, then the pre-release list, where a version without
pre-release (⊤) sorts above every pre-release of the same core, and
pre-release identifier lists compare left to right with the
shorter-prefix-smaller rule (semver §11). -/
abbrev SemverKey : Type := Nat ×ₗ (Nat ×ₗ (Nat ×ₗ WithTop (List PreReleaseId)))

/-- A parsed semver version (build metadata carries no precedence and is
dropped by the parser). -/
structure Semver where
  major : Nat
  minor : Nat
  patch : Nat
  prerelease : Option (List PreReleaseId)

/-- The precedence key of a version. -/
def semverKey (v : Semver) : SemverKey :=
  toLex (v.major, toLex (v.minor, toLex (v.patch,
    match v.prerelease with
    | none => (⊤ : WithTop (List PreReleaseId))
    | some ids => (ids : WithTop (List PreReleaseId)))))

/-- Split a character list around a separator pattern. -/
def splitChars (s pat : List Char) : List (List Char) :=
  splitFuel (s.length + 1) pat s

/-- Parse one pre-release identifier: a non-empty all-digit identifier is
numeric; any other non-empty identifier of ASCII letters, digits and
hyphens is alphanumeric; anything else is invalid. -/
def parsePreReleaseId (cs : List Char) : Option PreReleaseId :=
  match parseDigits cs with
  | some n => some (toLex (Sum.inl n))
  | none =>
    if cs ≠ [] ∧ cs.all (fun c => c.isAlphanum || c = '-') then
      some (toLex (Sum.inr cs))
    else none

/-- Parse a dot-separated pre-release identifier list; one invalid
identifier fails the whole parse. -/
def parsePreReleaseIds : List (List Char) → Option (List PreReleaseId)
  | [] => some []
  | cs :: rest =>
    match parsePreReleaseId cs, parsePreReleaseIds rest with
    | some i, some is => some (i :: is)
    | _, _ => none

/-- Modelled from the spec: the parser of the external
`utility-node-semver` library, per §9 "implement full semver including
pre-release handling" — a `major.minor.patch` core, an optional
pre-release after the first hyphen following the core, and optional build
metadata after the first plus sign (parsed away, no precedence);
versions that do not parse make `SortStrings` fail. -/
def parseSemver (s : String) : Option Semver :=
  let noBuild := s.data.takeWhile (fun c => c ≠ '+')
  let core := noBuild.takeWhile (fun c => c ≠ '-')
  match (splitChars core ['.']).map parseDigits with
  | [some a, some b, some c] =>
    if core.length = noBuild.length then some ⟨a, b, c, none⟩
    else
      match parsePreReleaseIds
          (splitChars (noBuild.drop (core.length + 1)) ['.']) with
      | some ids => some ⟨a, b, c, some ids⟩
      | none => none
  | _ => none

/-- Descending comparison between version strings through their semver
precedence keys (unparseable strings compare through the key of 0.0.0;
`sortStringsDesc` only sorts lists where every string parses). -/
def semverGe (v w : String) : Prop :=
  semverKey ((parseSemver w).getD ⟨0, 0, 0, none⟩) ≤
    semverKey ((parseSemver v).getD ⟨0, 0, 0, none⟩)

instance : DecidableRel semverGe := fun _ _ => by
  unfold semverGe; infer_instance

/-- Modelled from the spec: `semver.SortStrings(-1, versions)` of the
external `utility-node-semver` library — sort descending by semver
ordering, failing when some string does not parse. -/
def sortStringsDesc (versions : List String) : Option (List String) :=
  if versions.all (fun v => (parseSemver v).isSome) then
    some (versions.insertionSort semverGe)
  else none

/-- Embedding of `GetLatestVersion` (npm.go): collect the version strings,
sort descending, return the first (on a sort error, return "").  Go reads
`versions[0]` unconditionally and would panic on an empty document; the
embedding totalises with "". -/
def getLatestVersion (versions : List String) : String :=
  match sortStringsDesc versions with
  | none => ""
  | some sorted => sorted.headD ("")

/-- A concrete version list for the C8 witness: numeric ordering beats
string ordering (10.0.1 over 2.30.4) and pre-releases sort below their
release (10.0.1-rc.1 below 10.0.1). -/
def versionsEx : List String :=
  ["2.30.4", "10.0.1", "10.0.1-rc.1", "1.0.0-beta", "1.0.0"]

/-! ## GCVE orchestrator (`src/mirrors/gcve/main.go`, function `Update`) -/

/-- Observable outcome of one GCVE `Update` run. -/
structure GcveUpdateOutcome where
  bulkRan : Bool
  vulnrichmentRan : Bool
  incrementalRan : Bool
  cursorWritten : Option Nat
  failed : Bool
deriving DecidableEq

/-- Embedding of GCVE `Update` (lines 34–80).  Times are hours as natural
numbers; `last = 0` models a zero (absent) cursor; the booleans give the
success of the bulk import, the vulnrichment import, the incremental
update and the cursor write. -/
def gcveUpdateRun (now last : Nat) (bulkOk _vulnrichmentOk incrementalOk
    cursorWriteOk : Bool) : GcveUpdateOutcome :=
  if last = 0 then
    if bulkOk then
      ⟨true, true, false, if cursorWriteOk then some now else none, !cursorWriteOk⟩
    else ⟨true, false, false, none, true⟩
  else if now - last > 24 * 30 then
    if bulkOk then
      ⟨true, true, false, if cursorWriteOk then some now else none, !cursorWriteOk⟩
    else ⟨true, false, false, none, true⟩
  else
    if incrementalOk then
      ⟨false, false, true, if cursorWriteOk then some now else none, !cursorWriteOk⟩
    else
      if bulkOk then
        ⟨true, false, true, if cursorWriteOk then some now else none, !cursorWriteOk⟩
      else ⟨true, false, true, none, true⟩

/-! ## Process bootstrap (`main.go`) -/

/-- Cron field semantics for the field patterns the program uses:
"0" fires at 0, "*" always, "*/6" every sixth unit. -/
def cronField (pat : String) (v : Nat) : Bool :=
  if pat = "*" then true
  else if pat = "*/6" then v % 6 = 0
  else
    match parseDigits pat.data with
    | some n => v = n
    | none => false

/-- Whether a cron expression (with or without a seconds field) fires at
second `s`, minute `m`, hour `h` of any day (all day-of-month, month and
day-of-week fields the program uses are "*").  Without a seconds field the
robfig scheduler fires at second 0. -/
def cronFires (expr : String) (withSeconds : Bool) (s m h : Nat) : Bool :=
  let fields := goSplit expr (" ")
  if withSeconds then
    cronField (fields.getD 0 ("")) s && cronField (fields.getD 1 ("")) m &&
      cronField (fields.getD 2 ("")) h
  else
    decide (s = 0) && cronField (fields.getD 0 ("")) m && cronField (fields.getD 1 ("")) h

/-- Observable behaviour of one `main` invocation. -/
structure MainEffect where
  printsUsageAndExits : Bool
  runsSetupCli : Bool
  runsUpdateCli : Bool
  verifiesKnowledgeDb : Bool
  cron : Option (String × Bool)
  blocksForever : Bool
deriving DecidableEq

/-- Embedding of the flag dispatch of `main` (main.go, lines 27–168).
The `cron` component carries the registered cron expression and whether
the scheduler parses it with a seconds field. -/
def mainEffect (help know daemon debug : Bool) (action : String) : MainEffect :=
  if help then ⟨true, false, false, false, none, false⟩
  else if know then
    if action = "setup" then ⟨false, true, false, false, none, false⟩
    else if action = "update" then ⟨false, false, true, false, none, false⟩
    else ⟨true, false, false, false, none, false⟩
  else if daemon then
    ⟨false, false, false, true,
     some (if debug then ("0 * * * * *", true) else ("0 0 */6 * * *", true)),
     true⟩
  else
    ⟨false, false, false, true, some (("0 */6 * * *", false)), true⟩

/-- The empty GCVE table. -/
def gcveEmptyDb : String → Option GCVEItem := fun _ => none

/-- The empty FriendsOfPHP table. -/
def fopEmptyDb : String → Option FopAdvisory := fun _ => none

/-- First half of a duplicated-key GCVE batch (witness input). -/
def gcveDupA : GCVEItem := ⟨"CVE-2024-1", "2024-01-01"⟩

/-- Second half of a duplicated-key GCVE batch (witness input). -/
def gcveDupB : GCVEItem := ⟨"CVE-2024-1", "2024-02-02"⟩

/-- First half of a duplicated-key FriendsOfPHP batch (witness input). -/
def fopDupA : FopAdvisory := ⟨"PKSA-dup-1", "title one"⟩

/-- Second half of a duplicated-key FriendsOfPHP batch (witness input). -/
def fopDupB : FopAdvisory := ⟨"PKSA-dup-1", "title two"⟩

/-! # Theorems -/

/-! ## Helper lemmas for the update coordinator (C6) -/

/-- Folding `updateStep` over any mirror list appends the whole list to
the executed component and its failures to the logged component. -/
theorem foldl_updateStep (fails : Mirror → Bool) (l : List Mirror)
    (e lg : List Mirror) :
    l.foldl (updateStep fails) (e, lg) = (e ++ l, lg ++ l.filter fails) := by
  induction l generalizing e lg with
  | nil => simp
  | cons m rest ih =>
    cases h : fails m <;>
      simp [List.foldl_cons, updateStep, h, ih, List.filter_cons]

/-- C6: a single update cycle runs the mirrors in the fixed order
licenses, EPSS, OSV, CWE, NVD, FriendsOfPHP, package follow; whatever
subset of mirrors fails, every mirror still runs (the executed sequence is
always the full order), each failing mirror is logged, and the coordinator
returns no error. -/
theorem c6_update_coordinator (fails : Mirror → Bool) :
    (updateRun fails).1 = updateOrder ∧
    (updateRun fails).2 = updateOrder.filter fails ∧
    updateResult fails = none := by
  unfold updateRun
  rw [foldl_updateStep]
  simp [updateResult]

/-- C9: in the GCVE orchestrator, when a previous cursor exists (`last ≠ 0`),
is fresher than 30 days, and the incremental update fails, the orchestrator
falls back to a full bulk import; when that fallback succeeds (and the
cursor write succeeds), no error is reported and the `gcve_last` cursor is
advanced to the current time. -/
theorem c9_gcve_incremental_fallback (now last : Nat) (vulnrOk : Bool)
    (hlast : last ≠ 0) (hfresh : now - last ≤ 24 * 30) :
    (gcveUpdateRun now last true vulnrOk false true).incrementalRan = true ∧
    (gcveUpdateRun now last true vulnrOk false true).bulkRan = true ∧
    (gcveUpdateRun now last true vulnrOk false true).failed = false ∧
    (gcveUpdateRun now last true vulnrOk false true).cursorWritten = some now := by
  have hstale : ¬ (now - last > 24 * 30) := by omega
  simp [gcveUpdateRun, hlast, hstale]

/-- C9 witness: the fallback scenario at a concrete clock (cursor 10 hours,
now 100 hours). -/
theorem c9_gcve_incremental_fallback_witness :
    ((10 : Nat) ≠ 0 ∧ 100 - 10 ≤ 24 * 30) ∧
    ((gcveUpdateRun 100 10 true true false true).incrementalRan = true ∧
      (gcveUpdateRun 100 10 true true false true).bulkRan = true ∧
      (gcveUpdateRun 100 10 true true false true).failed = false ∧
      (gcveUpdateRun 100 10 true true false true).cursorWritten = some 100) :=
  ⟨⟨by decide, by decide⟩,
   c9_gcve_incremental_fallback 100 10 true (by decide) (by decide)⟩

/-- C4: the `spdx` licence splitter is documented (its own doc comment and
the specification) to split "A AND B" into the two entries A and B, the
same way as "A OR B"; the code's AND branch however splits on " OR "
again, so "MIT AND Apache-2.0" yields the single entry
"MIT AND Apache-2.0", while the OR case and the parenthesised OR case
behave as documented. -/
theorem c4_spdx_and_split_eval :
    spdx ("MIT AND Apache-2.0") = ["MIT AND Apache-2.0"] ∧
    spdx ("(MIT AND Apache-2.0)") = ["MIT AND Apache-2.0"] ∧
    spdx ("MIT OR Apache-2.0") = ["MIT", "Apache-2.0"] ∧
    spdx ("(MIT OR Apache-2.0)") = ["MIT", "Apache-2.0"] := by
  decide

/-- C10: started with no flags at all, the process does not print usage
and exit; it behaves as the daemon: it verifies connectivity to the
knowledge database, registers a cron job firing exactly at second 0,
minute 0 of every sixth hour (i.e. every 6 hours), and blocks forever —
and its usage/connectivity/blocking behaviour and cron firing times
coincide with those of `--daemon` without `--debug`. -/
theorem c10_default_mode_is_daemon (action : String) :
    (mainEffect false false false false action).printsUsageAndExits = false ∧
    (mainEffect false false false false action).verifiesKnowledgeDb = true ∧
    (mainEffect false false false false action).blocksForever = true ∧
    (∃ c c',
      (mainEffect false false false false action).cron = some c ∧
      (mainEffect false false true false action).cron = some c' ∧
      (∀ s m h, cronFires c.1 c.2 s m h =
        (decide (s = 0) && decide (m = 0) && decide (h % 6 = 0))) ∧
      (∀ s m h, cronFires c.1 c.2 s m h = cronFires c'.1 c'.2 s m h)) ∧
    (mainEffect false false false false action).printsUsageAndExits =
      (mainEffect false false true false action).printsUsageAndExits ∧
    (mainEffect false false false false action).verifiesKnowledgeDb =
      (mainEffect false false true false action).verifiesKnowledgeDb ∧
    (mainEffect false false false false action).blocksForever =
      (mainEffect false false true false action).blocksForever := by
  refine ⟨rfl, rfl, rfl, ⟨("0 */6 * * *", false), ("0 0 */6 * * *", true), rfl, rfl, ?_, ?_⟩, rfl, rfl, rfl⟩
  · intro s m h
    rfl
  · intro s m h
    rfl

/-! ## npm download retry (C7) -/

/-- C7: for the npm package fetch, a 404 yields a not-found error with no
retry and no sleep; any other non-200, non-404, non-429 status yields an
error with no retry; a 429 on every attempt sleeps 30·(n+1) seconds before
retry attempt n+1 and gives up with a rate-limit error after 3 retries
(sleeps 30, 60, 90); and when the first n+1 attempts (n < 3) are 429 and
the next one succeeds, the call succeeds after exactly the sleeps
30·1, …, 30·(n+1). -/
theorem c7_npm_download_retry (resp : Nat → Nat) (n : Nat) :
    (resp 0 = 404 → downloadWithRetry resp 0 = (.notFound, [])) ∧
    (resp 0 ≠ 200 → resp 0 ≠ 404 → resp 0 ≠ 429 →
      downloadWithRetry resp 0 = (.fetchError (resp 0), [])) ∧
    ((∀ m, m ≤ 3 → resp m = 429) →
      downloadWithRetry resp 0 = (.rateLimited, [30, 60, 90])) ∧
    (n < 3 → (∀ m, m ≤ n → resp m = 429) → resp (n + 1) = 200 →
      downloadWithRetry resp 0 =
        (.success, (List.range (n + 1)).map (fun i => 30 * (i + 1)))) := by
  refine ⟨?_, ?_, ?_, ?_⟩
  · intro h
    rw [downloadWithRetry]
    simp [h]
  · intro h200 h404 h429
    rw [downloadWithRetry]
    simp [h200, h404, h429]
  · intro h
    have h0 := h 0 (by omega)
    have h1 := h 1 (by omega)
    have h2 := h 2 (by omega)
    have h3 := h 3 (by omega)
    rw [downloadWithRetry]
    simp only [h0]
    rw [downloadWithRetry]
    simp only [h1]
    rw [downloadWithRetry]
    simp only [h2]
    rw [downloadWithRetry]
    simp only [h3]
    norm_num
  · intro hn h429 h200
    interval_cases n
    · have h0 := h429 0 (by omega)
      rw [downloadWithRetry]
      simp only [h0]
      rw [downloadWithRetry]
      simp only [h200]
      norm_num
      decide
    · have h0 := h429 0 (by omega)
      have h1 := h429 1 (by omega)
      rw [downloadWithRetry]
      simp only [h0]
      rw [downloadWithRetry]
      simp only [h1]
      rw [downloadWithRetry]
      simp only [h200]
      norm_num
      decide
    · have h0 := h429 0 (by omega)
      have h1 := h429 1 (by omega)
      have h2 := h429 2 (by omega)
      rw [downloadWithRetry]
      simp only [h0]
      rw [downloadWithRetry]
      simp only [h1]
      rw [downloadWithRetry]
      simp only [h2]
      rw [downloadWithRetry]
      simp only [h200]
      norm_num
      decide

/-- C7 witness: the four status schedules, concretely. -/
theorem c7_npm_download_retry_witness :
    downloadWithRetry resp404 0 = (.notFound, []) ∧
    downloadWithRetry resp500 0 = (.fetchError 500, []) ∧
    downloadWithRetry respAll429 0 = (.rateLimited, [30, 60, 90]) ∧
    downloadWithRetry resp429Then200 0 =
      (.success, (List.range 2).map (fun i => 30 * (i + 1))) :=
  ⟨(c7_npm_download_retry resp404 0).1 rfl,
   (c7_npm_download_retry resp500 0).2.1 (by decide) (by decide) (by decide),
   (c7_npm_download_retry respAll429 0).2.2.1 (fun m _ => rfl),
   (c7_npm_download_retry resp429Then200 1).2.2.2 (by omega)
     (fun m hm => by interval_cases m <;> rfl) rfl⟩

/-! ## Version filtering (C5) -/

/-- Every write issued by the version loop of `UpdatePackage` carries a
row that `isPreviewVersion` rejects. -/
theorem mem_versionWrites_not_preview (existing : List String)
    (vs : List VersionRow) (w : VersionWrite)
    (hw : w ∈ updatePackageVersionWrites existing vs) :
    isPreviewVersion w.row.version = false := by
  induction vs with
  | nil => simp [updatePackageVersionWrites] at hw
  | cons v rest ih =>
    rw [updatePackageVersionWrites] at hw
    by_cases hp : isPreviewVersion v.version
    · rw [if_pos hp] at hw
      exact ih hw
    · rw [if_neg hp] at hw
      rcases List.mem_cons.mp hw with hww | hww
      · subst hww
        have hrow : ((if existing.contains v.version then VersionWrite.update v
            else VersionWrite.insert v)).row = v := by
          by_cases hc : existing.contains v.version = true
          · rw [if_pos hc]
            rfl
          · rw [if_neg hc]
            rfl
        rw [hrow]
        simpa using hp
      · exact ih hww

/-- C5: no Version row whose version string contains, case-insensitively,
any of the substrings alpha, beta, rc, canary, next, dev, experimental,
preview, pre, snapshot, nightly, unstable is ever inserted or updated by
`UpdatePackage`: such versions are dropped before the database write. -/
theorem c5_version_filter (existing : List String) (vs : List VersionRow)
    (w : VersionWrite) (hw : w ∈ updatePackageVersionWrites existing vs) :
    ∀ k ∈ specPrereleaseKeywords, ¬ (k.data <:+: (goToLower w.row.version).data) := by
  intro k hk hinf
  have hsub : ∀ x ∈ specPrereleaseKeywords, x ∈ previewKeywords := by decide
  have hnp := mem_versionWrites_not_preview existing vs w hw
  have hany : isPreviewVersion w.row.version = true := by
    unfold isPreviewVersion
    refine List.any_eq_true.mpr ⟨k, hsub k hk, ?_⟩
    exact decide_eq_true hinf
  rw [hnp] at hany
  cases hany

/-- The version rows of the C5 witness: one stable, one prerelease. -/
def versionRowsEx : List VersionRow :=
  [⟨"1.0.0", "t1"⟩, ⟨"2.0.0-beta.1", "t2"⟩]

/-- C5 witness: for the concrete input `versionRowsEx` the insert of
version 1.0.0 is issued and its version string contains no prerelease
keyword. -/
theorem c5_version_filter_witness :
    VersionWrite.insert ⟨"1.0.0", "t1"⟩ ∈ updatePackageVersionWrites [] versionRowsEx ∧
    ∀ k ∈ specPrereleaseKeywords,
      ¬ (k.data <:+: (goToLower (VersionWrite.insert ⟨"1.0.0", "t1"⟩).row.version).data) :=
  ⟨by decide, c5_version_filter [] versionRowsEx _ (by decide)⟩

/-! ## npm latest version (C8) -/

instance : IsTotal String semverGe := by
  constructor
  intro v w
  exact le_total (semverKey ((parseSemver w).getD ⟨0, 0, 0, none⟩))
    (semverKey ((parseSemver v).getD ⟨0, 0, 0, none⟩))

instance : IsTrans String semverGe := by
  constructor
  intro u v w huv hvw
  exact le_trans hvw huv

/-- `semverGe` is reflexive. -/
theorem semverGe_refl (v : String) : semverGe v v := by
  unfold semverGe
  exact le_refl _

/-- Scenario S1 of the specification: a document with versions 1.0.0 and
1.0.0-beta has latest version 1.0.0. -/
theorem getLatestVersion_s1 :
    getLatestVersion ["1.0.0", "1.0.0-beta"] = "1.0.0" := by decide

/-- C8: for every non-empty version list whose strings all parse as
semver, `GetLatestVersion` returns one of the versions, and that version
is greatest under the semver ordering. -/
theorem c8_latest_version (versions : List String) (hne : versions ≠ [])
    (hall : ∀ v ∈ versions, (parseSemver v).isSome) :
    getLatestVersion versions ∈ versions ∧
    ∀ v ∈ versions, semverGe (getLatestVersion versions) v := by
  have hparse : versions.all (fun v => (parseSemver v).isSome) = true :=
    List.all_eq_true.mpr fun v hv => hall v hv
  have hform : getLatestVersion versions =
      (versions.insertionSort semverGe).headD ("") := by
    unfold getLatestVersion sortStringsDesc
    rw [if_pos hparse]
  have hsortne : versions.insertionSort semverGe ≠ [] := by
    intro hemp
    have := List.perm_insertionSort semverGe versions
    rw [hemp] at this
    exact hne this.nil_eq.symm
  obtain ⟨x, rest, hx⟩ := List.exists_cons_of_ne_nil hsortne
  have hhead : getLatestVersion versions = x := by rw [hform, hx]; rfl
  have hsorted := List.sorted_insertionSort semverGe versions
  rw [hx] at hsorted
  constructor
  · rw [hhead]
    have : x ∈ versions.insertionSort semverGe := by rw [hx]; exact List.mem_cons_self x rest
    exact (List.mem_insertionSort semverGe).mp this
  · intro v hv
    have hvs : v ∈ x :: rest := by
      rw [← hx]
      exact (List.mem_insertionSort semverGe).mpr hv
    rw [hhead]
    rcases List.mem_cons.mp hvs with hvx | hvr
    · rw [← hvx]
      exact semverGe_refl v
    · exact List.rel_of_sorted_cons hsorted v hvr

/-- C8 witness: a concrete version list where plain string comparison
would pick a wrong answer but semver ordering picks 10.0.1. -/
theorem c8_latest_version_witness :
    (versionsEx ≠ [] ∧ ∀ v ∈ versionsEx, (parseSemver v).isSome) ∧
    (getLatestVersion versionsEx ∈ versionsEx ∧
      ∀ v ∈ versionsEx, semverGe (getLatestVersion versionsEx) v) :=
  ⟨⟨by decide, by decide⟩,
   c8_latest_version versionsEx (by decide) (by decide)⟩

/-! ## GCVE flattening (C2) -/

/-- The seen-map worker of `buildAffectedFlattened` computes a lowercase
map followed by a keep-first deduplication of the non-empty-product CNA
entries. -/
theorem buildAffectedFlattenedGo_spec (aff : List GCVEAffected)
    (seen : String → Bool) (seenKeys : List String)
    (hseen : ∀ k, seen k = decide (k ∈ seenKeys)) :
    buildAffectedFlattenedGo aff seen =
      dedupFirstAux ((aff.filter (fun a => a.product ≠ "")).map lowerPair) seenKeys := by
  induction aff generalizing seen seenKeys with
  | nil => rfl
  | cons a rest ih =>
    rw [buildAffectedFlattenedGo, List.filter_cons]
    by_cases hp : a.product = ""
    · rw [if_pos hp]
      have hdec : (decide (a.product ≠ "")) = false := by simp [hp]
      rw [hdec, if_neg Bool.false_ne_true]
      exact ih seen seenKeys hseen
    · rw [if_neg hp]
      have hdec : (decide (a.product ≠ "")) = true := by simp [hp]
      rw [hdec, if_pos rfl]
      have hkey : gcveProductKey a.vendor a.product = prodKey (lowerPair a) := rfl
      rw [hseen (gcveProductKey a.vendor a.product), List.map_cons, dedupFirstAux]
      by_cases hmem : prodKey (lowerPair a) ∈ seenKeys
      · rw [hkey, if_pos (decide_eq_true hmem), if_pos hmem]
        exact ih seen seenKeys hseen
      · rw [hkey]
        have hdecm : (decide (prodKey (lowerPair a) ∈ seenKeys)) = false := by
          simpa using hmem
        rw [hdecm, if_neg (by simp), if_neg hmem]
        have hlp : (⟨goToLower a.vendor, goToLower a.product⟩ : GCVEProduct) =
            lowerPair a := rfl
        rw [hlp]
        congr 1
        refine ih _ (prodKey (lowerPair a) :: seenKeys) ?_
        intro k
        by_cases hk : k = prodKey (lowerPair a) <;> simp [hk, hseen k]

/-- Folding the ADP append step equals appending the verbatim pairs of the
flattened ADP lists. -/
theorem foldl_adp_append (adps : List (List GCVEAffected))
    (acc : List GCVEProduct) :
    adps.foldl
      (fun flat adpAff =>
        flat ++ (adpAff.filter (fun a => a.product ≠ "")).map
          (fun a => ⟨a.vendor, a.product⟩))
      acc =
    acc ++ (adps.flatten.filter (fun a => a.product ≠ "")).map rawPair := by
  induction adps generalizing acc with
  | nil => simp
  | cons l ls ih =>
    rw [List.foldl_cons, ih, List.flatten_cons, List.filter_append,
      List.map_append, List.append_assoc]
    rfl

/-- C2 (amended): the GCVE `affected_flattened` field equals the
lowercased, keep-first-deduplicated (vendor, product) pairs of the CNA
affected list with only empty products excluded (the wildcard "*" product
is retained), followed by the verbatim — neither lowercased nor
deduplicated — (vendor, product) pairs of the ADP affected lists with
non-empty product. -/
theorem c2_gcve_affected_flattened_amended (cna : List GCVEAffected)
    (adps : List (List GCVEAffected)) :
    parseAffectedFlattened cna adps =
      dedupFirstAux ((cna.filter (fun a => a.product ≠ "")).map lowerPair) [] ++
        (adps.flatten.filter (fun a => a.product ≠ "")).map rawPair := by
  unfold parseAffectedFlattened buildAffectedFlattened
  rw [foldl_adp_append,
    buildAffectedFlattenedGo_spec cna _ [] (fun k => by simp)]

/-- C2 counterexample: for a CNA affected list with the wildcard product
"*" and an ADP affected list with an upper-case product, the computed
`affected_flattened` contains the pair (v, *) — which the claim excludes —
and the non-lowercased pair (Ven, Prod), while the set the claim
describes contains neither. -/
theorem c2_counterexample :
    (⟨"v", "*"⟩ : GCVEProduct) ∈ parseAffectedFlattened cnaAffectedEx adpAffectedsEx ∧
    (⟨"v", "*"⟩ : GCVEProduct) ∉ specAffectedFlattened cnaAffectedEx adpAffectedsEx ∧
    (⟨"Ven", "Prod"⟩ : GCVEProduct) ∈ parseAffectedFlattened cnaAffectedEx adpAffectedsEx ∧
    (⟨"Ven", "Prod"⟩ : GCVEProduct) ∉ specAffectedFlattened cnaAffectedEx adpAffectedsEx := by
  decide

/-! ## NVD CPE filtering (C3) -/

/-- Every element of `filterCpe l` has part "a". -/
theorem mem_filterCpe (l : List CpeMatch) (e : CpeMatch) (he : e ∈ filterCpe l) :
    e.criteriaDict.part = "a" := by
  unfold filterCpe at he
  exact of_decide_eq_true (List.mem_filter.mp he).2

/-- Appending one entry whose sources and running-on-applications-only
components are all part "a" preserves the invariant. -/
theorem appended_entry_parts (acc : List NVDAffected) (x : NVDAffected)
    (aff : NVDAffected)
    (hacc : ∀ a ∈ acc,
      (∀ e ∈ a.sources, e.criteriaDict.part = "a") ∧
      (∀ e ∈ a.runningOnApplicationsOnly, e.criteriaDict.part = "a"))
    (hx : (∀ e ∈ x.sources, e.criteriaDict.part = "a") ∧
      (∀ e ∈ x.runningOnApplicationsOnly, e.criteriaDict.part = "a"))
    (haff : aff ∈ acc ++ [x]) :
    (∀ e ∈ aff.sources, e.criteriaDict.part = "a") ∧
    (∀ e ∈ aff.runningOnApplicationsOnly, e.criteriaDict.part = "a") := by
  rcases List.mem_append.mp haff with hl | hr
  · exact hacc aff hl
  · rw [List.mem_singleton] at hr
    subst hr
    exact hx

/-- `processNode` preserves the invariant that every produced affected
entry has only part-"a" CPEs in its sources and
running-on-applications-only components. -/
theorem processNode_parts (acc : List NVDAffected) (node : Node)
    (hacc : ∀ aff ∈ acc,
      (∀ e ∈ aff.sources, e.criteriaDict.part = "a") ∧
      (∀ e ∈ aff.runningOnApplicationsOnly, e.criteriaDict.part = "a")) :
    ∀ aff ∈ processNode acc node,
      (∀ e ∈ aff.sources, e.criteriaDict.part = "a") ∧
      (∀ e ∈ aff.runningOnApplicationsOnly, e.criteriaDict.part = "a") := by
  intro aff haff
  unfold processNode at haff
  split_ifs at haff <;>
    first
    | exact hacc aff haff
    | exact appended_entry_parts acc _ aff hacc
        ⟨fun e he => mem_filterCpe _ e he, fun e he => mem_filterCpe _ e he⟩ haff
    | exact appended_entry_parts acc _ aff hacc
        ⟨fun e he => mem_filterCpe _ e he, fun e he => by simp at he⟩ haff

/-- The invariant of `processNode_parts`, folded over a node list. -/
theorem foldl_processNode_parts (nodes : List Node) (acc : List NVDAffected)
    (hacc : ∀ aff ∈ acc,
      (∀ e ∈ aff.sources, e.criteriaDict.part = "a") ∧
      (∀ e ∈ aff.runningOnApplicationsOnly, e.criteriaDict.part = "a")) :
    ∀ aff ∈ nodes.foldl processNode acc,
      (∀ e ∈ aff.sources, e.criteriaDict.part = "a") ∧
      (∀ e ∈ aff.runningOnApplicationsOnly, e.criteriaDict.part = "a") := by
  induction nodes generalizing acc with
  | nil => exact hacc
  | cons n rest ih =>
    rw [List.foldl_cons]
    exact ih (processNode acc n) (processNode_parts acc n hacc)

/-- Every affected entry `createAffected` produces has only part-"a" CPEs
in its sources and running-on-applications-only components. -/
theorem createAffected_parts (cve : NvdCve) (aff : NVDAffected)
    (haff : aff ∈ createAffected cve) :
    (∀ e ∈ aff.sources, e.criteriaDict.part = "a") ∧
    (∀ e ∈ aff.runningOnApplicationsOnly, e.criteriaDict.part = "a") := by
  unfold createAffected at haff
  cases hc : cve.configurations with
  | nil => rw [hc] at haff; simp at haff
  | cons cfg0 restCfg =>
    rw [hc] at haff
    exact foldl_processNode_parts cfg0.nodes [] (by simp) aff haff

/-- C3 (amended): the sources and running-on-applications-only components
of every normalised NVD affected entry contain only application ("a")
CPEs, but `affected_flattened` also includes the first affected entry's
running-on list unfiltered, so every `affected_flattened` entry whose part
is not "a" (in particular parts "o" and "h") comes from that running-on
list. -/
theorem c3_nvd_cpe_filter_amended (cve : NvdCve) (e : CpeMatch)
    (he : e ∈ affectedFlattenedOf cve) (hne : e.criteriaDict.part ≠ "a") :
    ∃ a0 rest, createAffected cve = a0 :: rest ∧ e ∈ a0.runningOn ∧
      (∀ x ∈ a0.sources, x.criteriaDict.part = "a") ∧
      (∀ x ∈ a0.runningOnApplicationsOnly, x.criteriaDict.part = "a") := by
  unfold affectedFlattenedOf nvdAffectedFlattened at he
  cases hca : createAffected cve with
  | nil => rw [hca] at he; simp at he
  | cons a0 rest =>
    rw [hca] at he
    have ha0 : a0 ∈ createAffected cve := by
      rw [hca]; exact List.mem_cons_self a0 rest
    have hgood := createAffected_parts cve a0 ha0
    refine ⟨a0, rest, rfl, ?_, hgood.1, hgood.2⟩
    rcases List.mem_append.mp he with hsr | ho
    · rcases List.mem_append.mp hsr with hs | hr
      · exact absurd (hgood.1 e hs) hne
      · exact hr
    · exact absurd (hgood.2 e ho) hne

/-- C3 counterexample: a record with an AND configuration whose second
child is an OS CPE produces an `affected_flattened` entry with
criteriaDict.part "o". -/
theorem c3_counterexample :
    ∃ e ∈ affectedFlattenedOf nvdCveEx, e.criteriaDict.part = "o" := by
  decide

/-- C3 witness: the amended theorem applied to the concrete record
`nvdCveEx` and its OS entry. -/
theorem c3_nvd_cpe_filter_amended_witness :
    (withParsed osCpeEx ∈ affectedFlattenedOf nvdCveEx ∧
      (withParsed osCpeEx).criteriaDict.part ≠ "a") ∧
    (∃ a0 rest, createAffected nvdCveEx = a0 :: rest ∧
      withParsed osCpeEx ∈ a0.runningOn ∧
      (∀ x ∈ a0.sources, x.criteriaDict.part = "a") ∧
      (∀ x ∈ a0.runningOnApplicationsOnly, x.criteriaDict.part = "a")) :=
  ⟨⟨by decide, by decide⟩,
   c3_nvd_cpe_filter_amended nvdCveEx (withParsed osCpeEx) (by decide) (by decide)⟩

/-! ## Batch upsert deduplication (C1) -/

/-- Upserting twice under the same key keeps only the later row. -/
theorem rowUpsert_same {α : Type} (key : α → String) (db : String → Option α)
    (x y : α) (h : key x = key y) :
    rowUpsert key (rowUpsert key db x) y = rowUpsert key db y := by
  funext k
  unfold rowUpsert
  by_cases hk : k = key y
  · rw [if_pos hk, if_pos hk]
  · rw [if_neg hk, if_neg hk, if_neg (fun hc => hk (hc.trans h))]

/-- Upserts under distinct keys commute. -/
theorem rowUpsert_comm {α : Type} (key : α → String) (db : String → Option α)
    (x y : α) (h : key x ≠ key y) :
    rowUpsert key (rowUpsert key db x) y = rowUpsert key (rowUpsert key db y) x := by
  funext k
  unfold rowUpsert
  by_cases hky : k = key y <;> by_cases hkx : k = key x
  · exact absurd (hkx.symm.trans hky) h
  · simp [hky, hkx, h, Ne.symm h]
  · simp [hky, hkx, h, Ne.symm h]
  · simp [hky, hkx]

/-- An upsert whose key does not occur in the tail moves across a fold. -/
theorem foldl_rowUpsert_notmem {α : Type} (key : α → String) (ys : List α)
    (db : String → Option α) (x : α) (h : key x ∉ ys.map key) :
    ys.foldl (rowUpsert key) (rowUpsert key db x) =
      rowUpsert key (ys.foldl (rowUpsert key) db) x := by
  induction ys generalizing db with
  | nil => rfl
  | cons z zs ih =>
    rw [List.map_cons] at h
    have hz : key x ≠ key z := fun hc => h (by rw [hc]; exact List.mem_cons_self _ _)
    have hzs : key x ∉ zs.map key := fun hc => h (List.mem_cons_of_mem _ hc)
    rw [List.foldl_cons, List.foldl_cons, rowUpsert_comm key db x z hz]
    exact ih (rowUpsert key db z) hzs

/-- A key of `upsertKeep l x` is a key of `l` or the key of `x`. -/
theorem upsertKeep_key_mem {α : Type} (key : α → String) (l : List α) (x : α)
    (k : String) (hk : k ∈ (upsertKeep key l x).map key) :
    k ∈ l.map key ∨ k = key x := by
  induction l with
  | nil =>
    simp [upsertKeep] at hk
    right
    exact hk
  | cons y ys ih =>
    rw [upsertKeep] at hk
    by_cases hyx : key y = key x
    · rw [if_pos hyx, List.map_cons] at hk
      rcases List.mem_cons.mp hk with h1 | h2
      · right; exact h1
      · left; exact List.mem_cons_of_mem _ h2
    · rw [if_neg hyx, List.map_cons] at hk
      rcases List.mem_cons.mp hk with h1 | h2
      · left; rw [List.map_cons]; exact h1 ▸ List.mem_cons_self _ _
      · rcases ih h2 with h3 | h3
        · left; exact List.mem_cons_of_mem _ h3
        · right; exact h3

/-- `upsertKeep` preserves distinctness of keys. -/
theorem upsertKeep_nodup {α : Type} (key : α → String) (l : List α) (x : α)
    (h : (l.map key).Nodup) : ((upsertKeep key l x).map key).Nodup := by
  induction l with
  | nil => simp [upsertKeep]
  | cons y ys ih =>
    rw [List.map_cons, List.nodup_cons] at h
    rw [upsertKeep]
    by_cases hyx : key y = key x
    · rw [if_pos hyx, List.map_cons, List.nodup_cons]
      exact ⟨fun hc => h.1 (hyx ▸ hc), h.2⟩
    · rw [if_neg hyx, List.map_cons, List.nodup_cons]
      refine ⟨fun hc => ?_, ih h.2⟩
      rcases upsertKeep_key_mem key ys x (key y) hc with h3 | h3
      · exact h.1 h3
      · exact hyx h3

/-- Folding upserts over `upsertKeep l x` (keys of `l` distinct) equals
folding over `l` and then upserting `x`. -/
theorem foldl_rowUpsert_upsertKeep {α : Type} (key : α → String) (l : List α)
    (x : α) (db : String → Option α) (h : (l.map key).Nodup) :
    (upsertKeep key l x).foldl (rowUpsert key) db =
      rowUpsert key (l.foldl (rowUpsert key) db) x := by
  induction l generalizing db with
  | nil => rfl
  | cons y ys ih =>
    rw [List.map_cons, List.nodup_cons] at h
    rw [upsertKeep]
    by_cases hyx : key y = key x
    · rw [if_pos hyx, List.foldl_cons, List.foldl_cons,
        foldl_rowUpsert_notmem key ys db x (fun hc => h.1 (hyx ▸ hc)),
        foldl_rowUpsert_notmem key ys db y h.1,
        rowUpsert_same key (ys.foldl (rowUpsert key) db) y x hyx]
    · rw [if_neg hyx, List.foldl_cons, List.foldl_cons]
      exact ih (rowUpsert key db y) h.2

/-- Folding `upsertKeep` keeps keys distinct. -/
theorem foldl_upsertKeep_nodup {α : Type} (key : α → String)
    (items acc : List α) (hacc : (acc.map key).Nodup) :
    ((items.foldl (upsertKeep key) acc).map key).Nodup := by
  induction items generalizing acc with
  | nil => exact hacc
  | cons x xs ih =>
    rw [List.foldl_cons]
    exact ih _ (upsertKeep_nodup key acc x hacc)

/-- The batch produced by folding `upsertKeep` upserts like the original
item sequence. -/
theorem foldl_rowUpsert_foldl_upsertKeep {α : Type} (key : α → String)
    (items acc : List α) (db : String → Option α)
    (hacc : (acc.map key).Nodup) :
    (items.foldl (upsertKeep key) acc).foldl (rowUpsert key) db =
      items.foldl (rowUpsert key) (acc.foldl (rowUpsert key) db) := by
  induction items generalizing acc db with
  | nil => rfl
  | cons x xs ih =>
    rw [List.foldl_cons,
      ih (upsertKeep key acc x) db (upsertKeep_nodup key acc x hacc),
      foldl_rowUpsert_upsertKeep key acc x db hacc, List.foldl_cons]

/-- Setting the slot found by `firstIdx` does not move any first index
(the key at that slot is unchanged). -/
theorem firstIdx_set {α : Type} (key : α → String) (l : List α) (idx : Nat)
    (x : α) (h : firstIdx key l (key x) = some idx) (k : String) :
    firstIdx key (l.set idx x) k = firstIdx key l k := by
  induction l generalizing idx with
  | nil => simp [firstIdx] at h
  | cons y ys ih =>
    rw [firstIdx] at h
    by_cases hy : key y = key x
    · rw [if_pos hy] at h
      have h0 : idx = 0 := (Option.some.inj h).symm
      subst h0
      show firstIdx key (x :: ys) k = firstIdx key (y :: ys) k
      rw [firstIdx, firstIdx, hy]
    · rw [if_neg hy] at h
      cases hj : firstIdx key ys (key x) with
      | none => rw [hj] at h; simp at h
      | some j =>
        rw [hj] at h
        simp at h
        rw [← h]
        show firstIdx key (y :: ys.set j x) k = firstIdx key (y :: ys) k
        rw [firstIdx, firstIdx, ih j hj]

/-- Setting the slot found by `firstIdx` is the replace-or-append
operation (replace case). -/
theorem set_firstIdx_upsertKeep {α : Type} (key : α → String) (l : List α)
    (idx : Nat) (x : α) (h : firstIdx key l (key x) = some idx) :
    l.set idx x = upsertKeep key l x := by
  induction l generalizing idx with
  | nil => simp [firstIdx] at h
  | cons y ys ih =>
    rw [firstIdx] at h
    by_cases hy : key y = key x
    · rw [if_pos hy] at h
      have h0 : idx = 0 := (Option.some.inj h).symm
      subst h0
      rw [upsertKeep, if_pos hy]
      rfl
    · rw [if_neg hy] at h
      cases hj : firstIdx key ys (key x) with
      | none => rw [hj] at h; simp at h
      | some j =>
        rw [hj] at h
        simp at h
        rw [← h, upsertKeep, if_neg hy]
        show y :: ys.set j x = y :: upsertKeep key ys x
        rw [ih j hj]

/-- When the key is absent, `upsertKeep` appends. -/
theorem upsertKeep_append {α : Type} (key : α → String) (l : List α) (x : α)
    (h : firstIdx key l (key x) = none) :
    upsertKeep key l x = l ++ [x] := by
  induction l with
  | nil => rfl
  | cons y ys ih =>
    rw [firstIdx] at h
    by_cases hy : key y = key x
    · rw [if_pos hy] at h; simp at h
    · rw [if_neg hy] at h
      have hys : firstIdx key ys (key x) = none := by
        cases hj : firstIdx key ys (key x) with
        | none => rfl
        | some j => rw [hj] at h; simp at h
      rw [upsertKeep, if_neg hy, ih hys]
      rfl

/-- `firstIdx` is unchanged by appending when the key already occurs. -/
theorem firstIdx_append_of_some {α : Type} (key : α → String) (l : List α)
    (x : α) (k : String) (i : Nat) (h : firstIdx key l k = some i) :
    firstIdx key (l ++ [x]) k = some i := by
  induction l generalizing i with
  | nil => simp [firstIdx] at h
  | cons y ys ih =>
    rw [firstIdx] at h
    rw [List.cons_append, firstIdx]
    by_cases hy : key y = k
    · rw [if_pos hy] at h
      rw [if_pos hy]
      exact h
    · rw [if_neg hy] at h
      rw [if_neg hy]
      cases hj : firstIdx key ys k with
      | none => rw [hj] at h; simp at h
      | some j =>
        rw [hj] at h
        rw [ih j hj]
        exact h

/-- `firstIdx` after appending a fresh element points at the end when the
appended key matches and nowhere otherwise. -/
theorem firstIdx_append_of_none {α : Type} (key : α → String) (l : List α)
    (x : α) (k : String) (h : firstIdx key l k = none) :
    firstIdx key (l ++ [x]) k = if key x = k then some l.length else none := by
  induction l with
  | nil => rfl
  | cons y ys ih =>
    rw [firstIdx] at h
    by_cases hy : key y = k
    · rw [if_pos hy] at h; simp at h
    · rw [if_neg hy] at h
      have hys : firstIdx key ys k = none := by
        cases hj : firstIdx key ys k with
        | none => rfl
        | some j => rw [hj] at h; simp at h
      rw [List.cons_append, firstIdx, if_neg hy, ih hys]
      by_cases hx : key x = k <;> simp [hx, List.length_cons]

/-- The worker of `deduplicateGcveItems` computes the fold of
replace-or-append steps, for any well-formed seen map. -/
theorem dedupGo_spec {α : Type} (key : α → String) (items : List α) :
    ∀ (result : List α) (seen : String → Option Nat),
      (∀ k, seen k = firstIdx key result k) →
      dedupGo key items result seen = items.foldl (upsertKeep key) result := by
  induction items with
  | nil => intro result seen _; rfl
  | cons x xs ih =>
    intro result seen hseen
    rw [dedupGo, List.foldl_cons]
    cases hs : seen (key x) with
    | some idx =>
      have hfi : firstIdx key result (key x) = some idx := by
        rw [← hseen]; exact hs
      show dedupGo key xs (result.set idx x) seen =
        xs.foldl (upsertKeep key) (upsertKeep key result x)
      rw [set_firstIdx_upsertKeep key result idx x hfi]
      refine ih (upsertKeep key result x) seen (fun k => ?_)
      rw [hseen k, ← set_firstIdx_upsertKeep key result idx x hfi,
        firstIdx_set key result idx x hfi k]
    | none =>
      have hfi : firstIdx key result (key x) = none := by
        rw [← hseen]; exact hs
      show dedupGo key xs (result ++ [x])
          (fun k => if k = key x then some result.length else seen k) =
        xs.foldl (upsertKeep key) (upsertKeep key result x)
      rw [upsertKeep_append key result x hfi]
      refine ih (result ++ [x]) _ (fun k => ?_)
      by_cases hk : k = key x
      · have hnone : firstIdx key result k = none := hk ▸ hfi
        rw [firstIdx_append_of_none key result x k hnone]
        simp [hk]
      · cases hj : firstIdx key result k with
        | none =>
          rw [firstIdx_append_of_none key result x k hj]
          have hx : ¬ key x = k := fun hc => hk hc.symm
          rw [if_neg hx]
          simp [hk]
          rw [hseen k]
          exact hj
        | some j =>
          rw [firstIdx_append_of_some key result x k j hj]
          simp [hk]
          rw [hseen k]
          exact hj

/-- `deduplicateGcveItems` is the left fold of replace-or-append steps:
the surviving occurrence of each natural key is the last one, placed at
the key's first position. -/
theorem deduplicateGcveItems_spec (items : List GCVEItem) :
    deduplicateGcveItems items = items.foldl (upsertKeep GCVEItem.gcveId) [] :=
  dedupGo_spec GCVEItem.gcveId items [] _ (fun _ => rfl)

/-- The GCVE batch upsert always succeeds and persists exactly the state
of upserting the input rows one at a time, in order. -/
theorem batchUpdateGcve_eq (db : String → Option GCVEItem)
    (items : List GCVEItem) :
    batchUpdateGcve db items =
      (items.foldl (rowUpsert GCVEItem.gcveId) db, true) := by
  unfold batchUpdateGcve
  cases items with
  | nil => rfl
  | cons x xs =>
    rw [show ((x :: xs).isEmpty = false) from rfl]
    rw [deduplicateGcveItems_spec]
    unfold sqlBatchUpsert
    rw [if_pos (foldl_upsertKeep_nodup GCVEItem.gcveId (x :: xs) [] (by simp))]
    rw [foldl_rowUpsert_foldl_upsertKeep GCVEItem.gcveId (x :: xs) [] db (by simp)]
    rfl

/-- Upserting a row and then a later row with the same key equals
upserting only the later one. -/
theorem foldl_rowUpsert_dup_drop {α : Type} (key : α → String) (rest : List α)
    (db : String → Option α) (a : α) (h : ∃ c ∈ rest, key c = key a) :
    rest.foldl (rowUpsert key) (rowUpsert key db a) =
      rest.foldl (rowUpsert key) db := by
  induction rest generalizing db with
  | nil => obtain ⟨c, hc, _⟩ := h; simp at hc
  | cons z zs ih =>
    rw [List.foldl_cons, List.foldl_cons]
    by_cases hz : key z = key a
    · rw [rowUpsert_same key db a z hz.symm]
    · obtain ⟨c, hc, hck⟩ := h
      rcases List.mem_cons.mp hc with h1 | h1
      · exact absurd (h1 ▸ hck) hz
      · rw [rowUpsert_comm key db a z (fun hc2 => hz hc2.symm)]
        exact ih (rowUpsert key db z) ⟨c, h1, hck⟩

/-- C1 (amended): only the GCVE batch upsert deduplicates its input slice
by natural key, keeping the last occurrence, before issuing the SQL — so
a GCVE batch always succeeds and a batch containing an earlier and a later
row with the same natural key persists the state produced by submitting
only the later row.  The OSV and FriendsOfPHP batch upserts issue the SQL
on the slice as given, and on a slice whose natural keys are not distinct
the batch statement fails and the stored state is left unchanged. -/
theorem c1_batch_upsert_dedup_amended
    (db : String → Option GCVEItem) (items l1 l2 l3 : List GCVEItem)
    (a b : GCVEItem)
    (odb : String → Option OSVItem) (oitems : List OSVItem)
    (fdb : String → Option FopAdvisory) (fitems : List FopAdvisory)
    (hab : a.gcveId = b.gcveId)
    (ho : ¬ (oitems.map OSVItem.osvId).Nodup)
    (hf : ¬ (fitems.map FopAdvisory.advisoryId).Nodup) :
    batchUpdateGcve db items =
      (items.foldl (rowUpsert GCVEItem.gcveId) db, true) ∧
    (batchUpdateGcve db (l1 ++ a :: (l2 ++ b :: l3))).1 =
      (batchUpdateGcve db (l1 ++ (l2 ++ b :: l3))).1 ∧
    batchUpdateOsv odb oitems = (odb, false) ∧
    batchUpdateFop fdb fitems = (fdb, false) := by
  refine ⟨batchUpdateGcve_eq db items, ?_, ?_, ?_⟩
  · rw [batchUpdateGcve_eq, batchUpdateGcve_eq]
    show (l1 ++ a :: (l2 ++ b :: l3)).foldl (rowUpsert GCVEItem.gcveId) db =
      (l1 ++ (l2 ++ b :: l3)).foldl (rowUpsert GCVEItem.gcveId) db
    rw [List.foldl_append, List.foldl_append, List.foldl_cons]
    exact foldl_rowUpsert_dup_drop GCVEItem.gcveId (l2 ++ b :: l3)
      (l1.foldl (rowUpsert GCVEItem.gcveId) db) a
      ⟨b, by simp, hab.symm⟩
  · have hne : oitems ≠ [] := by
      intro hemp
      rw [hemp] at ho
      exact ho (by simp)
    unfold batchUpdateOsv sqlBatchUpsert
    rw [if_neg (by simpa using hne), if_neg ho]
  · have hne : fitems ≠ [] := by
      intro hemp
      rw [hemp] at hf
      exact hf (by simp)
    unfold batchUpdateFop sqlBatchUpsert
    rw [if_neg (by simpa using hne), if_neg hf]

/-- C1 counterexample: for an OSV batch holding two rows with the same
natural key on an empty table, the persisted state differs from that of
submitting only the later row (the claim asserts they are equal): the
duplicate batch fails and stores nothing. -/
theorem c1_counterexample :
    (batchUpdateOsv osvEmptyDb [osvDupA, osvDupB]).1 ≠
      (batchUpdateOsv osvEmptyDb [osvDupB]).1 := by
  intro h
  exact absurd (congrFun h ("OSV-2024-1")) (by decide)

/-- C1 witness: the amended theorem at concrete duplicated batches. -/
theorem c1_batch_upsert_dedup_amended_witness :
    (gcveDupA.gcveId = gcveDupB.gcveId ∧
      ¬ (([osvDupA, osvDupB]).map OSVItem.osvId).Nodup ∧
      ¬ (([fopDupA, fopDupB]).map FopAdvisory.advisoryId).Nodup) ∧
    (batchUpdateGcve gcveEmptyDb [gcveDupA, gcveDupB] =
        (([gcveDupA, gcveDupB]).foldl (rowUpsert GCVEItem.gcveId) gcveEmptyDb,
          true) ∧
      (batchUpdateGcve gcveEmptyDb
          ([] ++ gcveDupA :: ([] ++ gcveDupB :: []))).1 =
        (batchUpdateGcve gcveEmptyDb ([] ++ ([] ++ gcveDupB :: []))).1 ∧
      batchUpdateOsv osvEmptyDb [osvDupA, osvDupB] = (osvEmptyDb, false) ∧
      batchUpdateFop fopEmptyDb [fopDupA, fopDupB] = (fopEmptyDb, false)) :=
  ⟨⟨by decide, by decide, by decide⟩,
   c1_batch_upsert_dedup_amended gcveEmptyDb [gcveDupA, gcveDupB] [] [] []
     gcveDupA gcveDupB osvEmptyDb [osvDupA, osvDupB] fopEmptyDb
     [fopDupA, fopDupB] (by decide) (by decide) (by decide)⟩
